import Mathlib

/-!
Shallow embedding of the audio session core of the Gemini Presentation
Architect app: the PCM codec (`src/services/audioUtils.ts`), the playback
scheduler and interruption handling, the tool-call dispatcher, the
slide-update handler and the live-session start/stop control
(`src/App.tsx`).  Floats are modelled as rationals, byte buffers as lists
of naturals below 256, and the stateful callback handlers as explicit
state-passing functions.
-/

/-! ## PCM codec (src/services/audioUtils.ts) -/

/-- JS expression `Math.max(-1, Math.min(1, x))`: the clamp applied to each
sample in `createPCMBlob` (audioUtils.ts line 57). -/
def clampSample (s : ℚ) : ℚ := max (-1) (min 1 s)

/-- Encoding of one sample by `createPCMBlob` (audioUtils.ts line 59):
`int16[i] = s < 0 ? s * 0x8000 : s * 0x7FFF` after clamping, where the
`Int16Array` store truncates the float toward zero.  Truncation toward zero
is the ceiling for negative values and the floor for nonnegative ones. -/
def encodeSample (s : ℚ) : ℤ :=
  let c := clampSample s
  if c < 0 then ⌈c * 32768⌉ else ⌊c * 32767⌋

/-- Little-endian byte pair of a 16-bit sample, as laid out by
`new Uint8Array(int16.buffer)` (audioUtils.ts line 61; `Int16Array` is
little-endian on the platforms the app targets, matching the explicit
little-endian read in `pcmToAudioBuffer`). -/
def int16ToBytesLE (v : ℤ) : List Nat :=
  let u := (v % 65536).toNat
  [u % 256, u / 256]

/-- Byte stream produced by `createPCMBlob` (audioUtils.ts lines 52-62),
taken before the base64 transport step (`encodeBase64`, an exact byte
bijection that the receiving side undoes with `decodeBase64`). -/
def createPCMBlob (data : List ℚ) : List Nat :=
  (data.map (fun s => int16ToBytesLE (encodeSample s))).flatten

/-- Read of `dataView.getInt16(offset, true)` (audioUtils.ts line 42): two
bytes, little endian, two's complement. -/
def readInt16LE (data : List Nat) (offset : Nat) : ℤ :=
  let u := data.getD offset 0 + 256 * data.getD (offset + 1) 0
  if (u : ℤ) < 32768 then (u : ℤ) else (u : ℤ) - 65536

/-- Samples decoded into one channel by the loop of `pcmToAudioBuffer`
(audioUtils.ts lines 36-45).  In the source,
`frameCount = data.byteLength / (2 * numChannels)` is a JS float:
`ctx.createBuffer` truncates it to the whole buffer length, while the loop
`for (i = 0; i < frameCount; i++)` runs for every natural below the
untruncated value.  A store past the buffer length is silently dropped
(typed-array semantics), which `List.set` mirrors, and the fresh buffer is
zero-filled, hence the `List.replicate`. -/
def decodeChannel (data : List Nat) (numChannels channel : Nat) : List ℚ :=
  let len := data.length
  let frameCount := len / (2 * numChannels)
  let loopBound := (len + 2 * numChannels - 1) / (2 * numChannels)
  (List.range loopBound).foldl
    (fun acc i =>
      let offset := (i * numChannels + channel) * 2
      if offset + 1 < len then acc.set i (readInt16LE data offset / 32768) else acc)
    (List.replicate frameCount 0)

/-- Channel contents of the `AudioBuffer` returned by `pcmToAudioBuffer`
(audioUtils.ts lines 24-47) on the inputs where buffer allocation
succeeds.  Empty input short-circuits to
`ctx.createBuffer(numChannels, 1, sampleRate)`: one zero frame per
channel.  The allocation failure `ctx.createBuffer` raises when the
truncated frame count is zero is modelled by `pcmToAudioBufferE` below,
which returns exactly these contents on every successful input; the sample
rate only tags the buffer and never affects its contents, so it is not
carried. -/
def pcmToAudioBuffer (data : List Nat) (numChannels : Nat) : List (List ℚ) :=
  if data.length = 0 then List.replicate numChannels (List.replicate 1 0)
  else (List.range numChannels).map (decodeChannel data numChannels)

/-- Decode with the allocation check of `ctx.createBuffer` made explicit:
Web Audio's `createBuffer(numberOfChannels, length, sampleRate)` throws
`NotSupportedError` when the channel count or the (IDL-truncated) length
is zero.  So a non-empty input shorter than one full frame — truncated
frame count `data.byteLength / (2 * numChannels)` equal to zero — raises
instead of decoding, and a zero channel count always raises.  On every
other input the result is the buffer computed by `pcmToAudioBuffer`. -/
def pcmToAudioBufferE (data : List Nat) (numChannels : Nat) :
    Except String (List (List ℚ)) :=
  if data.length = 0 then
    if numChannels = 0 then Except.error "NotSupportedError"
    else Except.ok (List.replicate numChannels (List.replicate 1 0))
  else
    if numChannels = 0 ∨ data.length / (2 * numChannels) = 0 then
      Except.error "NotSupportedError"
    else Except.ok ((List.range numChannels).map (decodeChannel data numChannels))

/-! ## Playback scheduler (src/App.tsx, onmessage audio path) -/

/-- Playback scheduler state of the live session: the set of in-flight
`AudioBufferSourceNode`s (`audioSourcesRef`, kept as the list of their
scheduled start times) and the timing cursor `nextStartTimeRef`. -/
structure PlaybackState where
  inFlight : List ℚ
  nextStartTime : ℚ
  deriving DecidableEq

/-- Start time chosen for a fragment (App.tsx lines 239-241):
`const now = outputCtx.currentTime; if (nextStartTimeRef.current < now)
nextStartTimeRef.current = now + 0.05; source.start(nextStartTimeRef.current)`. -/
def scheduleStart (next now : ℚ) : ℚ :=
  if next < now then now + 1/20 else next

/-- Audio-fragment branch of `onmessage` (App.tsx lines 234-244): schedule
the decoded buffer and advance the cursor by its duration.  Returns the new
state together with the chosen start time. -/
def onAudioFragment (st : PlaybackState) (now dur : ℚ) : PlaybackState × ℚ :=
  let s := scheduleStart st.nextStartTime now
  (⟨st.inFlight ++ [s], s + dur⟩, s)

/-- Interruption branch of `onmessage` (App.tsx lines 249-253): stop every
in-flight source, clear the set, reset the cursor to zero. -/
def onInterrupted (_st : PlaybackState) : PlaybackState := ⟨[], 0⟩

/-- Start times chosen for a run of audio fragments with no interruption in
between; each fragment arrives as the pair (output-clock `currentTime` at
arrival, buffer duration). -/
def runSchedule (st : PlaybackState) : List (ℚ × ℚ) → List ℚ
  | [] => []
  | e :: rest =>
      let r := onAudioFragment st e.1 e.2
      r.2 :: runSchedule r.1 rest

/-! ## Presentation data model (src/types.ts) -/

/-- Slide layouts (types.ts, `enum SlideLayout`). -/
inductive SlideLayout where
  | TITLE
  | CONTENT
  | TWO_COLUMN
  | IMAGE_TEXT
  | QUOTE
  deriving DecidableEq

/-- A slide (types.ts, `interface Slide`); the optional fields are options. -/
structure Slide where
  id : String
  title : String
  content : List String
  layout : SlideLayout
  imageUrl : Option String
  imagePrompt : Option String
  subTitle : Option String
  deriving DecidableEq

instance : Inhabited Slide :=
  ⟨⟨"", "", [], SlideLayout.CONTENT, none, none, none⟩⟩

/-- A presentation (types.ts, `interface Presentation`); `sources` is
optional in the source, hence the outer option. -/
structure Presentation where
  id : String
  title : String
  slides : List Slide
  sources : Option (List (String × String))
  deriving DecidableEq

/-- A `Partial<Slide>` as passed to `handleUpdateCurrentSlide`: a field is
`some` exactly when the update object carries that key. -/
structure SlideUpdate where
  id : Option String := none
  title : Option String := none
  content : Option (List String) := none
  layout : Option SlideLayout := none
  imageUrl : Option String := none
  imagePrompt : Option String := none
  subTitle : Option String := none
  deriving DecidableEq

/-- JS object spread `{ ...slide, ...updates }` (App.tsx line 76): a key
present in `updates` wins, every other key keeps the slide's value. -/
def mergeSlide (s : Slide) (u : SlideUpdate) : Slide where
  id := u.id.getD s.id
  title := u.title.getD s.title
  content := u.content.getD s.content
  layout := u.layout.getD s.layout
  imageUrl := u.imageUrl.orElse fun _ => s.imageUrl
  imagePrompt := u.imagePrompt.orElse fun _ => s.imagePrompt
  subTitle := u.subTitle.orElse fun _ => s.subTitle

/-- Function `handleUpdateCurrentSlide` (App.tsx lines 73-82): copy the
slide list, replace the slide at `activeSlideIndex` by its merge with the
update, keep every other presentation field.  Every call site keeps
`activeSlideIndex` within bounds; an out-of-range index leaves the
presentation unchanged in this model (the JS sparse-array extension an
out-of-range store would perform is never exercised by the app). -/
def handleUpdateCurrentSlide (p : Presentation) (activeSlideIndex : Nat)
    (updates : SlideUpdate) : Presentation :=
  match p.slides[activeSlideIndex]? with
  | some s => { p with slides := p.slides.set activeSlideIndex (mergeSlide s updates) }
  | none => p

/-! ## Tool dispatcher (src/App.tsx, onmessage toolCall path) -/

/-- One element of `message.toolCall.functionCalls`.  In the source
`fc.args` is an untyped record; the model carries the two projections the
handlers read: `(fc.args as any).topic` for `create_presentation` and
`fc.args as Partial<Slide>` for `update_slide`. -/
structure FunctionCall where
  id : String
  name : String
  topic : Option String
  update : SlideUpdate
  deriving DecidableEq

/-- Acknowledgement sent by `sendToolResponse` (App.tsx lines 225-227):
`functionResponses: { id: fc.id, name: fc.name, response: { result: "OK" } }`. -/
structure ToolAck where
  id : String
  name : String
  result : String
  deriving DecidableEq

/-- Local application state the tool handlers touch.  The
`create_presentation` handler fires an asynchronous generation
(`handleGenerateRef`), modelled as recording the requested topic. -/
structure AppModel where
  presentation : Presentation
  activeSlideIndex : Nat
  pendingTopic : Option String
  deriving DecidableEq

/-- Body of the `for (const fc of message.toolCall.functionCalls)` loop
(App.tsx lines 219-228): dispatch on the exact name, then send exactly one
acknowledgement keyed by `fc.id` whatever the name was. -/
def processFunctionCall (st : AppModel) (fc : FunctionCall) : AppModel × ToolAck :=
  let st' :=
    if fc.name = "create_presentation" then { st with pendingTopic := fc.topic }
    else if fc.name = "update_slide" then
      { st with presentation :=
          handleUpdateCurrentSlide st.presentation st.activeSlideIndex fc.update }
    else st
  (st', ⟨fc.id, fc.name, "OK"⟩)

/-- The whole `message.toolCall` handler (App.tsx lines 218-229): the loop
over `functionCalls`, threading the state and collecting the
acknowledgements in order. -/
def processToolCall (st : AppModel) : List FunctionCall → AppModel × List ToolAck
  | [] => (st, [])
  | fc :: rest =>
      let r := processFunctionCall st fc
      let r2 := processToolCall r.1 rest
      (r2.1, r.2 :: r2.2)

/-! ## Live session start/stop (src/App.tsx) -/

/-- The `connectionStatus` React state: `'idle' | 'connecting' | 'active'`. -/
inductive ConnStatus where
  | idle
  | connecting
  | active
  deriving DecidableEq

/-- Session-scoped resources and status of the live session.  The `has…`
flags mirror the refs currently held (`streamRef`, `inputAudioCtxRef`,
`outputAudioCtxRef`, `sessionPromiseRef`); `streamAcquisitions` and
`channelOpens` count acquisition events over the whole run, so that
"acquires no new device" is the counter staying put. -/
structure LiveState where
  status : ConnStatus
  hasStream : Bool
  hasInputCtx : Bool
  hasOutputCtx : Bool
  hasSession : Bool
  nextStartTime : ℚ
  streamAcquisitions : Nat
  channelOpens : Nat
  deriving DecidableEq

/-- Function `startLive` (App.tsx lines 116-272), success path, up to the
creation of the session promise.  The body performs no check of the current
status: it sets `'connecting'`, requests the microphone, opens both audio
contexts and the network channel unconditionally. -/
def startLive (st : LiveState) : LiveState where
  status := ConnStatus.connecting
  hasStream := true
  hasInputCtx := true
  hasOutputCtx := true
  hasSession := true
  nextStartTime := st.nextStartTime
  streamAcquisitions := st.streamAcquisitions + 1
  channelOpens := st.channelOpens + 1

/-- Function `stopLive` (App.tsx lines 274-289): close the session, release
every held resource, return to `'idle'` and reset the playback cursor. -/
def stopLive (st : LiveState) : LiveState where
  status := ConnStatus.idle
  hasStream := false
  hasInputCtx := false
  hasOutputCtx := false
  hasSession := false
  nextStartTime := 0
  streamAcquisitions := st.streamAcquisitions
  channelOpens := st.channelOpens

/-- The microphone control (App.tsx line 341):
`onClick={connectionStatus === 'idle' ? startLive : stopLive}` — the only
place `startLive` is ever invoked. -/
def micButtonClick (st : LiveState) : LiveState :=
  if st.status = ConnStatus.idle then startLive st else stopLive st

/-! ## Helper lemmas about the scheduler -/

lemma scheduleStart_ge_next (next now : ℚ) : next ≤ scheduleStart next now := by
  unfold scheduleStart
  split
  · linarith
  · exact le_refl next

lemma runSchedule_cons (st : PlaybackState) (e : ℚ × ℚ) (rest : List (ℚ × ℚ)) :
    runSchedule st (e :: rest)
      = (onAudioFragment st e.1 e.2).2 :: runSchedule (onAudioFragment st e.1 e.2).1 rest :=
  rfl

lemma onAudioFragment_snd (st : PlaybackState) (now dur : ℚ) :
    (onAudioFragment st now dur).2 = scheduleStart st.nextStartTime now :=
  rfl

lemma onAudioFragment_fst_next (st : PlaybackState) (now dur : ℚ) :
    (onAudioFragment st now dur).1.nextStartTime = scheduleStart st.nextStartTime now + dur :=
  rfl

lemma runSchedule_head_ge (st : PlaybackState) (e : ℚ × ℚ) (rest : List (ℚ × ℚ)) :
    st.nextStartTime ≤ (runSchedule st (e :: rest)).getD 0 0 := by
  rw [runSchedule_cons, List.getD_cons_zero, onAudioFragment_snd]
  exact scheduleStart_ge_next _ _

/-! ## C1, C2, C3: the playback scheduling discipline -/

/-- C1 (amended): when a fragment is enqueued with cursor `next` at device
time `now`, the scheduled start is `now + 0.05` when `next < now` and
`next` itself otherwise; this agrees with `max (now + 0.05) next` except in
the window `now ≤ next < now + 0.05`, where the code starts at `next`
without imposing the 50 ms lead.  After scheduling, the cursor equals the
start time plus the fragment's duration. -/
theorem enqueue_start_and_cursor (next now dur : ℚ) (inFl : List ℚ) :
    ((onAudioFragment ⟨inFl, next⟩ now dur).1.nextStartTime
        = (onAudioFragment ⟨inFl, next⟩ now dur).2 + dur)
    ∧ (next < now → (onAudioFragment ⟨inFl, next⟩ now dur).2 = now + 1/20)
    ∧ (now ≤ next → (onAudioFragment ⟨inFl, next⟩ now dur).2 = next)
    ∧ ((next < now ∨ now + 1/20 ≤ next) →
        (onAudioFragment ⟨inFl, next⟩ now dur).2 = max (now + 1/20) next) := by
  refine ⟨rfl, ?_, ?_, ?_⟩
  · intro h
    simp [onAudioFragment, scheduleStart, if_pos h]
  · intro h
    simp [onAudioFragment, scheduleStart, if_neg (not_lt.mpr h)]
  · rintro (h | h)
    · rw [onAudioFragment_snd]
      show scheduleStart next now = _
      rw [scheduleStart, if_pos h, max_eq_left (by linarith)]
    · have h2 : ¬ next < now := by linarith
      rw [onAudioFragment_snd]
      show scheduleStart next now = _
      rw [scheduleStart, if_neg h2, max_eq_right h]

/-- C1 witness: cursor 2, device time 1, duration 3 — the start is the
cursor and the new cursor is start plus duration. -/
theorem enqueue_start_and_cursor_witness :
    (onAudioFragment ⟨[], 2⟩ 1 3).1.nextStartTime = (onAudioFragment ⟨[], 2⟩ 1 3).2 + 3
    ∧ (onAudioFragment ⟨[], 2⟩ 1 3).2 = max (1 + 1/20) 2 :=
  ⟨(enqueue_start_and_cursor 2 1 3 []).1,
   (enqueue_start_and_cursor 2 1 3 []).2.2.2 (Or.inr (by norm_num))⟩

/-- C1 counterexample: with cursor 1/100 and device time 0 the code starts
the fragment at 1/100, not at `max (0 + 0.05) (1/100) = 0.05` — the claimed
`max` formula fails inside the window `now ≤ next < now + 0.05`. -/
theorem enqueue_start_max_counterexample :
    (onAudioFragment ⟨[], 1/100⟩ 0 1).2 ≠ max (0 + 1/20) (1/100) := by
  have h : (onAudioFragment ⟨[], (1:ℚ)/100⟩ 0 1).2 = 1/100 := by
    rw [onAudioFragment_snd]
    show scheduleStart (1/100) 0 = 1/100
    rw [scheduleStart, if_neg (by norm_num)]
  rw [h, max_eq_left (by norm_num)]
  norm_num

/-- C2: along any run of enqueues with no interruption in between,
consecutive scheduled start times never overlap: each fragment starts no
earlier than the previous start plus the previous duration. -/
theorem scheduler_non_overlap (st : PlaybackState) (evs : List (ℚ × ℚ)) :
    ∀ i, i + 1 < evs.length →
      (runSchedule st evs).getD i 0 + (evs.getD i (0, 0)).2
        ≤ (runSchedule st evs).getD (i + 1) 0 := by
  induction evs generalizing st with
  | nil =>
      intro i h
      simp at h
  | cons e rest ih =>
      intro i h
      cases i with
      | zero =>
          match rest, h with
          | e2 :: rest2, _ =>
            have hh := runSchedule_head_ge (onAudioFragment st e.1 e.2).1 e2 rest2
            rw [onAudioFragment_fst_next] at hh
            rw [runSchedule_cons, List.getD_cons_zero, List.getD_cons_succ,
              List.getD_cons_zero, onAudioFragment_snd]
            exact hh
      | succ j =>
          have hj : j + 1 < rest.length := by
            simpa using h
          have := ih (onAudioFragment st e.1 e.2).1 j hj
          rw [runSchedule_cons]
          simpa using this

/-- C2 witness: three fragments of durations 1/2, 3/10 and 1/5, all
arriving at device time 0 with cursor 0 — the second start (1/2) is exactly
the first start (0) plus the first duration (1/2). -/
theorem scheduler_non_overlap_witness :
    (runSchedule ⟨[], 0⟩ [(0, 1/2), (0, 3/10), (0, 1/5)]).getD 0 0 + (1:ℚ)/2
      ≤ (runSchedule ⟨[], 0⟩ [(0, 1/2), (0, 3/10), (0, 1/5)]).getD 1 0 := by
  have h := scheduler_non_overlap ⟨[], 0⟩ [(0, 1/2), (0, 3/10), (0, 1/5)] 0 (by norm_num)
  simpa using h

/-- C3: the interruption handler stops and clears every in-flight fragment
and zeroes the cursor, and the next fragment enqueued afterwards starts no
earlier than the device time at its arrival, with a start time independent
of whatever cursor value was held before the interrupt. -/
theorem interrupt_resets_schedule (st : PlaybackState) (now dur : ℚ) :
    (onInterrupted st).inFlight = []
    ∧ (onInterrupted st).nextStartTime = 0
    ∧ now ≤ (onAudioFragment (onInterrupted st) now dur).2
    ∧ ∀ st' : PlaybackState,
        (onAudioFragment (onInterrupted st) now dur).2
          = (onAudioFragment (onInterrupted st') now dur).2 := by
  refine ⟨rfl, rfl, ?_, fun st' => rfl⟩
  have h : (onAudioFragment (onInterrupted st) now dur).2 = scheduleStart 0 now := rfl
  rw [h, scheduleStart]
  rcases lt_or_ge 0 now with hn | hn
  · rw [if_pos hn]
    linarith
  · rw [if_neg (not_lt.mpr hn)]
    exact hn

/-! ## Helper lemmas about the codec -/

lemma clampSample_mem (s : ℚ) : -1 ≤ clampSample s ∧ clampSample s ≤ 1 := by
  unfold clampSample
  constructor
  · exact le_max_left _ _
  · exact max_le (by norm_num) (min_le_left _ _)

lemma clampSample_eq_self (s : ℚ) (h1 : -1 ≤ s) (h2 : s ≤ 1) : clampSample s = s := by
  unfold clampSample
  rw [min_eq_right h2, max_eq_right h1]

lemma encodeSample_def (s : ℚ) :
    encodeSample s
      = if clampSample s < 0 then ⌈clampSample s * 32768⌉ else ⌊clampSample s * 32767⌋ :=
  rfl

lemma encodeSample_mem (s : ℚ) : -32768 ≤ encodeSample s ∧ encodeSample s ≤ 32767 := by
  obtain ⟨h1, h2⟩ := clampSample_mem s
  rw [encodeSample_def]
  by_cases h : clampSample s < 0
  · rw [if_pos h]
    constructor
    · have h3 : ((-32768 : ℤ) : ℚ) ≤ clampSample s * 32768 := by push_cast; nlinarith
      exact_mod_cast h3.trans (Int.le_ceil (clampSample s * 32768))
    · refine Int.ceil_le.mpr ?_
      push_cast
      nlinarith
  · rw [if_neg h]
    push_neg at h
    constructor
    · have h4 : (0 : ℤ) ≤ ⌊clampSample s * 32767⌋ := Int.le_floor.mpr (by push_cast; nlinarith)
      omega
    · have h5 : ⌊(clampSample s * 32767 : ℚ)⌋ ≤ ⌊(32767 : ℚ)⌋ :=
        Int.floor_le_floor (by nlinarith)
      simpa using h5

lemma encodeSample_close (s : ℚ) (h1 : -1 ≤ s) (h2 : s ≤ 1) :
    |s - (encodeSample s : ℚ) / 32768| < 1 / 16384 := by
  rw [encodeSample_def, clampSample_eq_self s h1 h2]
  by_cases h : s < 0
  · rw [if_pos h]
    have hle : (s * 32768 : ℚ) ≤ ⌈s * 32768⌉ := Int.le_ceil _
    have hlt : (⌈s * 32768⌉ : ℚ) < s * 32768 + 1 := Int.ceil_lt_add_one _
    rw [abs_lt]
    constructor
    · linarith
    · linarith
  · rw [if_neg h]
    push_neg at h
    have hle : (⌊s * 32767⌋ : ℚ) ≤ s * 32767 := Int.floor_le _
    have hlt : (s * 32767 : ℚ) < ⌊s * 32767⌋ + 1 := Int.lt_floor_add_one _
    rw [abs_lt]
    constructor
    · linarith
    · linarith

lemma createPCMBlob_cons (s : ℚ) (l : List ℚ) :
    createPCMBlob (s :: l) = int16ToBytesLE (encodeSample s) ++ createPCMBlob l :=
  rfl

lemma createPCMBlob_length (l : List ℚ) : (createPCMBlob l).length = 2 * l.length := by
  induction l with
  | nil => rfl
  | cons s t ih =>
      rw [createPCMBlob_cons, List.length_append, ih]
      show 2 + 2 * t.length = 2 * (t.length + 1)
      ring

lemma readInt16LE_pair (b0 b1 : Nat) (rest : List Nat) :
    readInt16LE (b0 :: b1 :: rest) 0
      = if ((b0 + 256 * b1 : Nat) : ℤ) < 32768 then ((b0 + 256 * b1 : Nat) : ℤ)
        else ((b0 + 256 * b1 : Nat) : ℤ) - 65536 :=
  rfl

lemma readInt16LE_int16ToBytesLE (v : ℤ) (h1 : -32768 ≤ v) (h2 : v ≤ 32767)
    (rest : List Nat) : readInt16LE (int16ToBytesLE v ++ rest) 0 = v := by
  have hb : int16ToBytesLE v ++ rest
      = (v % 65536).toNat % 256 :: (v % 65536).toNat / 256 :: rest := rfl
  rw [hb, readInt16LE_pair]
  have hu : ((v % 65536).toNat % 256 + 256 * ((v % 65536).toNat / 256) : Nat)
      = (v % 65536).toNat := by omega
  rw [hu]
  split
  · omega
  · omega

lemma readInt16LE_cons2 (b0 b1 : Nat) (rest : List Nat) (i : Nat) :
    readInt16LE (b0 :: b1 :: rest) (2 * (i + 1)) = readInt16LE rest (2 * i) := by
  have e1 : 2 * (i + 1) = 2 * i + 1 + 1 := by ring
  have h1 : (b0 :: b1 :: rest).getD (2 * (i + 1)) 0 = rest.getD (2 * i) 0 := by
    rw [e1, List.getD_cons_succ, List.getD_cons_succ]
  have h2 : (b0 :: b1 :: rest).getD (2 * (i + 1) + 1) 0 = rest.getD (2 * i + 1) 0 := by
    have e2 : 2 * (i + 1) + 1 = 2 * i + 1 + 1 + 1 := by ring
    rw [e2, List.getD_cons_succ, List.getD_cons_succ]
  simp only [readInt16LE, h1, h2]

lemma readPCM_at (l : List ℚ) : ∀ i, i < l.length →
    readInt16LE (createPCMBlob l) (2 * i) = encodeSample (l.getD i 0) := by
  induction l with
  | nil =>
      intro i h
      simp at h
  | cons s t ih =>
      intro i h
      cases i with
      | zero =>
          rw [createPCMBlob_cons, List.getD_cons_zero, mul_zero]
          exact readInt16LE_int16ToBytesLE _ (encodeSample_mem s).1 (encodeSample_mem s).2 _
      | succ j =>
          rw [createPCMBlob_cons, List.getD_cons_succ]
          have hstep :
              readInt16LE (int16ToBytesLE (encodeSample s) ++ createPCMBlob t) (2 * (j + 1))
                = readInt16LE (createPCMBlob t) (2 * j) :=
            readInt16LE_cons2 _ _ _ j
          rw [hstep]
          exact ih j (by simpa using h)

/-! ## C5, C6: encode totality and the empty-input decode -/

/-- C5: every sample is clamped to [-1, 1] before scaling (encoding any
value gives the same 16-bit word as encoding its clamp, so out-of-range
floats are absorbed, never rejected), and the produced 16-bit value always
lies in the signed 16-bit range, for every rational sample whatsoever. -/
theorem encode_clamped_in_range (s : ℚ) :
    (-32768 ≤ encodeSample s ∧ encodeSample s ≤ 32767)
    ∧ encodeSample s = encodeSample (clampSample s) := by
  refine ⟨encodeSample_mem s, ?_⟩
  have hidem : clampSample (clampSample s) = clampSample s :=
    clampSample_eq_self _ (clampSample_mem s).1 (clampSample_mem s).2
  rw [encodeSample_def, encodeSample_def (clampSample s), hidem]

/-- C6 counterexample: decoding the empty byte input does not give a
zero-length sample buffer — the code takes the `createBuffer(numChannels,
1, sampleRate)` branch, so the channel holds one (zero) sample. -/
theorem decode_empty_counterexample :
    ((pcmToAudioBuffer ([] : List Nat) 1).getD 0 []).length ≠ 0 := by
  decide

/-- C6 (amended): decoding the empty byte input yields, for each channel, a
one-sample silent buffer (a single zero sample — the smallest buffer the
output device accepts), and no error. -/
theorem decode_empty_one_silent_frame (numChannels : Nat) :
    pcmToAudioBuffer [] numChannels = List.replicate numChannels [0] :=
  rfl

/-! ## Characterising the decode loop -/

lemma replicate_zero_eq_range_map (n : Nat) :
    List.replicate n (0 : ℚ) = (List.range n).map fun _ => 0 := by
  induction n with
  | zero => rfl
  | succ k ih =>
      rw [List.range_succ, List.map_append, ← ih, List.replicate_succ']
      rfl

lemma range_map_set (n k : Nat) (v : Nat → ℚ) :
    ((List.range n).map (fun i => if i < k then v i else 0)).set k (v k)
      = (List.range n).map (fun i => if i < k + 1 then v i else 0) := by
  apply List.ext_getElem
  · simp
  · intro j h1 h2
    simp only [List.length_set, List.length_map, List.length_range] at h1 h2
    rw [List.getElem_set]
    simp only [List.getElem_map, List.getElem_range]
    by_cases hj : k = j
    · subst hj
      rw [if_pos rfl, if_pos (by omega)]
    · rw [if_neg hj]
      by_cases hlt : j < k
      · rw [if_pos hlt, if_pos (by omega)]
      · rw [if_neg hlt, if_neg (by omega)]


lemma decodeChannel_def (data : List Nat) (ch c : Nat) :
    decodeChannel data ch c
      = (List.range ((data.length + 2 * ch - 1) / (2 * ch))).foldl
          (fun acc i =>
            if (i * ch + c) * 2 + 1 < data.length
            then acc.set i ((readInt16LE data ((i * ch + c) * 2) : ℚ) / 32768) else acc)
          (List.replicate (data.length / (2 * ch)) (0 : ℚ)) :=
  rfl

lemma decode_fold_eq (data : List Nat) (ch c : Nat)
    (hg : ∀ i, i < data.length / (2 * ch) → (i * ch + c) * 2 + 1 < data.length) :
    ∀ m : Nat,
      (List.range m).foldl
          (fun acc i =>
            if (i * ch + c) * 2 + 1 < data.length
            then acc.set i ((readInt16LE data ((i * ch + c) * 2) : ℚ) / 32768) else acc)
          (List.replicate (data.length / (2 * ch)) (0 : ℚ))
        = (List.range (data.length / (2 * ch))).map
            (fun i =>
              if i < m then (readInt16LE data ((i * ch + c) * 2) : ℚ) / 32768 else 0) := by
  intro m
  induction m with
  | zero =>
      rw [List.range_zero, List.foldl_nil, replicate_zero_eq_range_map]
      apply List.map_congr_left
      intro i _
      rw [if_neg (Nat.not_lt_zero i)]
  | succ k ih =>
      rw [List.range_succ, List.foldl_append, ih, List.foldl_cons, List.foldl_nil]
      split
      · exact range_map_set _ k _
      · rename_i hguard
        have hk : ¬ k < data.length / (2 * ch) := fun hlt => hguard (hg k hlt)
        apply List.map_congr_left
        intro i hi
        rw [List.mem_range] at hi
        have hik : i < k := by omega
        rw [if_pos hik, if_pos (by omega)]

lemma decodeChannel_eq (data : List Nat) (ch c : Nat) (hch : 1 ≤ ch) (hc : c < ch) :
    decodeChannel data ch c
      = (List.range (data.length / (2 * ch))).map
          (fun i => (readInt16LE data ((i * ch + c) * 2) : ℚ) / 32768) := by
  have hg : ∀ i, i < data.length / (2 * ch) → (i * ch + c) * 2 + 1 < data.length := by
    intro i hi
    have hmul1 : i * ch + c + 1 ≤ (i + 1) * ch := by
      have h2 : (i + 1) * ch = i * ch + ch := by ring
      rw [h2, Nat.add_assoc]
      exact Nat.add_le_add_left hc _
    have hmul2 : (i + 1) * ch ≤ data.length / (2 * ch) * ch :=
      Nat.mul_le_mul_right ch hi
    have hdm : data.length / (2 * ch) * (2 * ch) ≤ data.length :=
      Nat.div_mul_le_self data.length (2 * ch)
    have hlink : data.length / (2 * ch) * ch * 2 = data.length / (2 * ch) * (2 * ch) := by
      ring
    have hfin : (i * ch + c + 1) * 2 ≤ data.length := by
      calc (i * ch + c + 1) * 2 ≤ (i + 1) * ch * 2 := Nat.mul_le_mul_right 2 hmul1
        _ ≤ data.length / (2 * ch) * ch * 2 := Nat.mul_le_mul_right 2 hmul2
        _ = data.length / (2 * ch) * (2 * ch) := hlink
        _ ≤ data.length := hdm
    have e : (i * ch + c + 1) * 2 = (i * ch + c) * 2 + 1 + 1 := by ring
    rw [e] at hfin
    omega
  rw [decodeChannel_def, decode_fold_eq data ch c hg _]
  apply List.map_congr_left
  intro i hi
  rw [List.mem_range] at hi
  have hB : data.length / (2 * ch) ≤ (data.length + 2 * ch - 1) / (2 * ch) :=
    Nat.div_le_div_right (by omega)
  rw [if_pos (lt_of_lt_of_le hi hB)]

/-! ## C7: partial trailing frames are dropped, short inputs raise -/

lemma pcmToAudioBufferE_ok (data : List Nat) (numChannels : Nat) (l : List (List ℚ))
    (h : pcmToAudioBufferE data numChannels = Except.ok l) :
    pcmToAudioBuffer data numChannels = l := by
  unfold pcmToAudioBufferE at h
  unfold pcmToAudioBuffer
  by_cases h0 : data.length = 0
  · rw [if_pos h0] at h
    rw [if_pos h0]
    by_cases hc : numChannels = 0
    · rw [if_pos hc] at h
      exact Except.noConfusion h
    · rw [if_neg hc] at h
      exact Except.ok.inj h
  · rw [if_neg h0] at h
    rw [if_neg h0]
    by_cases hc : numChannels = 0 ∨ data.length / (2 * numChannels) = 0
    · rw [if_pos hc] at h
      exact Except.noConfusion h
    · rw [if_neg hc] at h
      exact Except.ok.inj h

/-- C7 counterexample: the single-byte mono input is non-empty and its
length 1 is not a multiple of 2, yet decoding raises instead of returning
the (empty) list of full frames: the frame count 1/2 truncates to zero and
`ctx.createBuffer(1, 0, sampleRate)` throws `NotSupportedError` — the
claim's "without raising an error" fails on inputs shorter than one full
frame. -/
theorem decode_short_input_counterexample :
    ([5] : List Nat) ≠ []
    ∧ ¬ 2 * 1 ∣ ([5] : List Nat).length
    ∧ pcmToAudioBufferE [5] 1 = Except.error "NotSupportedError" := by
  refine ⟨by simp, by decide, ?_⟩
  rfl

/-- C7 (amended): for a non-empty byte input holding at least one full
frame whose length is not a multiple of `2 * numChannels`, decoding drops
the trailing partial frame and returns exactly the
`length / (2 * numChannels)` full frames, each channel holding the
little-endian 16-bit words scaled by 1/32768, with no error raised; a
non-empty input shorter than one full frame instead makes the output
buffer allocation throw (see the counterexample). -/
theorem decode_drops_partial_frame (data : List Nat) (numChannels : Nat)
    (hch : 1 ≤ numChannels) (hlong : 2 * numChannels ≤ data.length)
    (hnd : ¬ 2 * numChannels ∣ data.length) :
    pcmToAudioBufferE data numChannels
      = Except.ok ((List.range numChannels).map (fun c =>
          (List.range (data.length / (2 * numChannels))).map
            (fun i => (readInt16LE data ((i * numChannels + c) * 2) : ℚ) / 32768))) := by
  have hne : ¬ data.length = 0 := by omega
  have hfc : ¬ (numChannels = 0 ∨ data.length / (2 * numChannels) = 0) := by
    rintro (h0 | h0)
    · omega
    · have h1 : 1 ≤ data.length / (2 * numChannels) :=
        (Nat.one_le_div_iff (by omega)).mpr hlong
      omega
  unfold pcmToAudioBufferE
  rw [if_neg hne, if_neg hfc]
  congr 1
  apply List.map_congr_left
  intro c hc
  rw [List.mem_range] at hc
  exact decodeChannel_eq data numChannels c hch hc

/-- C7 witness: three bytes in mono (one full frame plus a trailing byte;
length 3 is not a multiple of 2) decode to exactly the one full frame, the
trailing byte dropped, with no error. -/
theorem decode_drops_partial_frame_witness :
    2 * 1 ≤ ([0, 0, 7] : List Nat).length
    ∧ ¬ 2 * 1 ∣ ([0, 0, 7] : List Nat).length
    ∧ pcmToAudioBufferE [0, 0, 7] 1 = Except.ok [[0]] := by
  refine ⟨by norm_num, by decide, ?_⟩
  rw [decode_drops_partial_frame [0, 0, 7] 1 (by norm_num) (by norm_num) (by decide)]
  have h : readInt16LE [0, 0, 7] 0 = 0 := by decide
  norm_num [List.range_succ, h]

/-! ## C4: the codec round trip -/

lemma decoded_channel_eq (samples : List ℚ) (hne : samples ≠ []) :
    (pcmToAudioBuffer (createPCMBlob samples) 1).getD 0 []
      = (List.range samples.length).map
          (fun i => (encodeSample (samples.getD i 0) : ℚ) / 32768) := by
  have hlen : (createPCMBlob samples).length = 2 * samples.length :=
    createPCMBlob_length samples
  have hne2 : ¬ (createPCMBlob samples).length = 0 := by
    rw [hlen]
    intro h0
    exact hne (List.length_eq_zero.mp (by omega))
  unfold pcmToAudioBuffer
  rw [if_neg hne2]
  rw [show List.range 1 = [0] from rfl]
  simp only [List.map_cons, List.map_nil, List.getD_cons_zero]
  rw [decodeChannel_eq _ 1 0 (le_refl 1) (by norm_num), hlen,
    Nat.mul_div_cancel_left samples.length (by norm_num : 0 < 2)]
  apply List.map_congr_left
  intro i hi
  rw [List.mem_range] at hi
  have e : (i * 1 + 0) * 2 = 2 * i := by ring
  rw [e, readPCM_at samples i hi]

/-- C4 (amended): encoding then decoding a non-empty sequence of in-range
samples gives back a buffer of the same length whose entries reproduce each
sample within two quantization steps (strictly less than 2/32768 = 1/16384).
One step does not suffice: the encoder scales nonnegative samples by 32767
while the decoder divides by 32768, so the error for samples near 1 exceeds
1/32768 (see the counterexample). -/
theorem codec_roundtrip_error_bound (samples : List ℚ)
    (hrange : ∀ s ∈ samples, -1 ≤ s ∧ s ≤ 1) (hne : samples ≠ []) :
    ((pcmToAudioBuffer (createPCMBlob samples) 1).getD 0 []).length = samples.length
    ∧ ∀ i, i < samples.length →
        |samples.getD i 0
          - ((pcmToAudioBuffer (createPCMBlob samples) 1).getD 0 []).getD i 0|
          < 1 / 16384 := by
  rw [decoded_channel_eq samples hne]
  constructor
  · simp
  · intro i hi
    have hlen : i < ((List.range samples.length).map
        (fun i => (encodeSample (samples.getD i 0) : ℚ) / 32768)).length := by
      simpa using hi
    rw [List.getD_eq_getElem _ _ hlen, List.getElem_map, List.getElem_range]
    have hmem : samples.getD i 0 ∈ samples := by
      rw [List.getD_eq_getElem samples 0 hi]
      exact List.getElem_mem hi
    obtain ⟨h1, h2⟩ := hrange _ hmem
    exact encodeSample_close _ h1 h2

/-- C4 witness: the singleton sequence [1/2] is in range, and its round
trip lands within two quantization steps of 1/2. -/
theorem codec_roundtrip_error_bound_witness :
    |(1 / 2 : ℚ) - ((pcmToAudioBuffer (createPCMBlob [1 / 2]) 1).getD 0 []).getD 0 0|
      < 1 / 16384 := by
  have h := (codec_roundtrip_error_bound [1 / 2]
    (by
      intro s hs
      rw [List.mem_singleton] at hs
      subst hs
      norm_num)
    (by simp)).2 0 (by norm_num)
  simpa using h

/-- C4 counterexample: the in-range sample 65535/65536 encodes to the
16-bit word 32766 and decodes to 32766/32768, an error of 3/65536 — more
than one quantization step 1/32768 = 2/65536.  The one-step round-trip
bound fails. -/
theorem codec_roundtrip_one_step_counterexample :
    ((-1 : ℚ) ≤ 65535 / 65536 ∧ (65535 / 65536 : ℚ) ≤ 1)
    ∧ ¬ |(65535 / 65536 : ℚ)
          - ((pcmToAudioBuffer (createPCMBlob [65535 / 65536]) 1).getD 0 []).getD 0 0|
          ≤ 1 / 32768 := by
  refine ⟨⟨by norm_num, by norm_num⟩, ?_⟩
  rw [decoded_channel_eq [65535 / 65536] (by simp)]
  have henc : encodeSample (65535 / 65536) = 32766 := by
    rw [encodeSample_def, clampSample_eq_self _ (by norm_num) (by norm_num),
      if_neg (by norm_num)]
    rw [Int.floor_eq_iff]
    constructor
    · norm_num
    · norm_num
  rw [show List.range ([(65535 / 65536 : ℚ)].length) = [0] from rfl]
  simp only [List.map_cons, List.map_nil, List.getD_cons_zero, henc]
  intro hcon
  rw [abs_le] at hcon
  have h2 := hcon.2
  norm_num at h2

/-! ## C8: dispatcher totality -/

lemma processFunctionCall_snd (st : AppModel) (fc : FunctionCall) :
    (processFunctionCall st fc).2 = ⟨fc.id, fc.name, "OK"⟩ :=
  rfl

/-- C8: the toolCall handler produces exactly one acknowledgement per
received function call — the acknowledgement list matches the call list
one for one, each keyed by the originating call's id (with its name and
the fixed result "OK") — for every call, including those whose name
matches no registered handler. -/
theorem dispatch_one_ack_per_call (st : AppModel) (fcs : List FunctionCall) :
    (processToolCall st fcs).2
      = fcs.map (fun fc => (⟨fc.id, fc.name, "OK"⟩ : ToolAck)) := by
  induction fcs generalizing st with
  | nil => rfl
  | cons fc rest ih =>
      show (processFunctionCall st fc).2
          :: (processToolCall (processFunctionCall st fc).1 rest).2 = _
      rw [processFunctionCall_snd, List.map_cons, ih]

/-! ## C9: starting the session outside Idle -/

/-- C9 counterexample: `startLive` itself performs no state guard — invoked
on an active session it acquires a fresh microphone stream (the acquisition
counter moves), contradicting "no-op or rejected, acquires no new devices". -/
theorem startLive_no_guard_counterexample :
    (LiveState.mk ConnStatus.active true true true true 0 1 1).status ≠ ConnStatus.idle
    ∧ (startLive (LiveState.mk ConnStatus.active true true true true 0 1 1)).streamAcquisitions
        ≠ (LiveState.mk ConnStatus.active true true true true 0 1 1).streamAcquisitions := by
  constructor
  · decide
  · decide

/-- C9 (amended): the guard lives at the call site, not in `startLive`: the
microphone control — the program's only invocation of `startLive` —
dispatches to `stopLive` whenever the status is not idle, so activating the
control in a non-idle state acquires no new device, opens no new channel,
and ends idle. -/
theorem mic_click_not_idle_no_acquire (st : LiveState)
    (h : st.status ≠ ConnStatus.idle) :
    (micButtonClick st).streamAcquisitions = st.streamAcquisitions
    ∧ (micButtonClick st).channelOpens = st.channelOpens
    ∧ (micButtonClick st).status = ConnStatus.idle := by
  unfold micButtonClick
  rw [if_neg h]
  exact ⟨rfl, rfl, rfl⟩

/-- C9 witness: clicking the microphone control on an active session with
one stream and one channel acquired leaves both counters at one and ends
idle. -/
theorem mic_click_not_idle_no_acquire_witness :
    (micButtonClick (LiveState.mk ConnStatus.active true true true true 0 1 1)).streamAcquisitions = 1
    ∧ (micButtonClick (LiveState.mk ConnStatus.active true true true true 0 1 1)).channelOpens = 1
    ∧ (micButtonClick (LiveState.mk ConnStatus.active true true true true 0 1 1)).status
        = ConnStatus.idle :=
  mic_click_not_idle_no_acquire (LiveState.mk ConnStatus.active true true true true 0 1 1)
    (by decide)

/-! ## C10: frame conditions of the slide update -/

/-- C10: applying a partial update through `handleUpdateCurrentSlide`
changes only the slide at the active index: the presentation id, its title,
the sources list and every other slide are untouched, the slide count is
preserved, and every field of the active slide not named in the update
keeps its previous value. -/
theorem update_slide_frame (p : Presentation) (idx : Nat) (u : SlideUpdate)
    (h : idx < p.slides.length) :
    (handleUpdateCurrentSlide p idx u).id = p.id
    ∧ (handleUpdateCurrentSlide p idx u).title = p.title
    ∧ (handleUpdateCurrentSlide p idx u).sources = p.sources
    ∧ (handleUpdateCurrentSlide p idx u).slides.length = p.slides.length
    ∧ (∀ j, j ≠ idx → (handleUpdateCurrentSlide p idx u).slides[j]? = p.slides[j]?)
    ∧ (u.id = none → ((handleUpdateCurrentSlide p idx u).slides.getD idx default).id
        = (p.slides.getD idx default).id)
    ∧ (u.title = none → ((handleUpdateCurrentSlide p idx u).slides.getD idx default).title
        = (p.slides.getD idx default).title)
    ∧ (u.content = none → ((handleUpdateCurrentSlide p idx u).slides.getD idx default).content
        = (p.slides.getD idx default).content)
    ∧ (u.layout = none → ((handleUpdateCurrentSlide p idx u).slides.getD idx default).layout
        = (p.slides.getD idx default).layout)
    ∧ (u.imageUrl = none → ((handleUpdateCurrentSlide p idx u).slides.getD idx default).imageUrl
        = (p.slides.getD idx default).imageUrl)
    ∧ (u.imagePrompt = none →
        ((handleUpdateCurrentSlide p idx u).slides.getD idx default).imagePrompt
          = (p.slides.getD idx default).imagePrompt)
    ∧ (u.subTitle = none → ((handleUpdateCurrentSlide p idx u).slides.getD idx default).subTitle
        = (p.slides.getD idx default).subTitle) := by
  have hget : p.slides[idx]? = some (p.slides.getD idx default) := by
    rw [List.getD_eq_getElem p.slides default h, List.getElem?_eq_getElem h]
  have hdef : handleUpdateCurrentSlide p idx u
      = { p with slides := p.slides.set idx (mergeSlide (p.slides.getD idx default) u) } := by
    unfold handleUpdateCurrentSlide
    rw [hget]
  rw [hdef]
  have hlt : idx < (p.slides.set idx (mergeSlide (p.slides.getD idx default) u)).length := by
    simpa using h
  have hnew : (p.slides.set idx (mergeSlide (p.slides.getD idx default) u)).getD idx default
      = mergeSlide (p.slides.getD idx default) u := by
    rw [List.getD_eq_getElem _ default hlt]
    exact List.getElem_set_self hlt
  refine ⟨rfl, rfl, rfl, by simp, ?_, ?_, ?_, ?_, ?_, ?_, ?_, ?_⟩
  · intro j hj
    exact List.getElem?_set_ne (Ne.symm hj)
  · intro hu
    rw [hnew]
    show (u.id.getD (p.slides.getD idx default).id) = _
    rw [hu, Option.getD_none]
  · intro hu
    rw [hnew]
    show (u.title.getD (p.slides.getD idx default).title) = _
    rw [hu, Option.getD_none]
  · intro hu
    rw [hnew]
    show (u.content.getD (p.slides.getD idx default).content) = _
    rw [hu, Option.getD_none]
  · intro hu
    rw [hnew]
    show (u.layout.getD (p.slides.getD idx default).layout) = _
    rw [hu, Option.getD_none]
  · intro hu
    rw [hnew]
    show (u.imageUrl.orElse fun _ => (p.slides.getD idx default).imageUrl) = _
    rw [hu]
    rfl
  · intro hu
    rw [hnew]
    show (u.imagePrompt.orElse fun _ => (p.slides.getD idx default).imagePrompt) = _
    rw [hu]
    rfl
  · intro hu
    rw [hnew]
    show (u.subTitle.orElse fun _ => (p.slides.getD idx default).subTitle) = _
    rw [hu]
    rfl

/-- C10 witness: updating slide 0 of a two-slide presentation with the
empty partial update leaves the title, the second slide and the active
slide's content unchanged. -/
theorem update_slide_frame_witness :
    (handleUpdateCurrentSlide ⟨"1", "T", [default, default], none⟩ 0 {}).title = "T"
    ∧ (handleUpdateCurrentSlide ⟨"1", "T", [default, default], none⟩ 0 {}).slides[1]?
        = some default
    ∧ ((handleUpdateCurrentSlide ⟨"1", "T", [default, default], none⟩ 0 {}).slides.getD 0
        default).content = [] := by
  have h := update_slide_frame ⟨"1", "T", [default, default], none⟩ 0 {} (by norm_num)
  exact ⟨h.2.1, h.2.2.2.2.1 1 (by norm_num), h.2.2.2.2.2.2.2.1 rfl⟩
